import Mathlib

/-!
# httpssni: a shallow embedding of `api.go`

The Go package `httpssni` performs one HTTPS request whose TCP connection goes to an
explicitly chosen address while TLS and the HTTP `Host` header keep following the
logical host of the URL.  This file embeds the package's data types and functions as
Lean definitions and proves properties of them.

Conventions of the embedding

* A Go `string` is a list of characters (`GoString`); a `[]byte` is a list of `UInt8`,
  and a possibly-nil slice is an `Option` of one.
* A Go `map[string]V` is an association list with pairwise distinct keys
  (`AList`).  The order of the list carries no meaning: wherever the Go code ranges
  over a map, the embedding takes the iteration order as an argument, and theorems
  only assume that it is some permutation of the entries.
* A method with a pointer receiver returns the receiver after the call next to its
  result whenever a claim speaks about what the call changes.
* A run-time panic or fatal error is the `Except.error` of a `Panic`.
* What the package calls in Go's standard library and the network is not
  reimplemented by the package.  Pure library functions whose result decides a
  property (`net.SplitHostPort`, the `Error()` strings of library errors) are
  transcribed from the library; the HTTP stack, the dialer, the body stream and the
  allocation limits of the Go runtime are arguments of the embedding, so that
  theorems hold for every behaviour of them.
-/

set_option linter.dupNamespace false

namespace httpssni

/-- A Go `string`. -/
abbrev GoString := List Char

/-- A Go `[]byte` that is not nil. -/
abbrev Bytes := List UInt8

/-- A Go map from strings to `V`: distinct keys, each with one value. -/
abbrev GoMap (V : Type) := AList (fun _ : GoString => V)

/-- A value of Go's `error` interface, seen through its only method `Error()`. -/
structure GoError where
  Error : GoString
deriving DecidableEq, Repr

deriving instance DecidableEq for Except

/-- Run-time failures the package can raise: none of them is returned to the caller
as a value. -/
inductive Panic where
  /-- `make([]byte, n)` with `n < 0` or `n` above the runtime's limit: the panic
  "makeslice: len out of range". -/
  | makesliceLenOutOfRange
  /-- `make([]byte, n)` when the heap cannot give `n` bytes: the fatal error
  "runtime: out of memory". -/
  | outOfMemory
  /-- `v[0]` on an empty slice: "index out of range [0] with length 0". -/
  | indexOutOfRange
deriving DecidableEq, Repr

/-- What `make([]byte, n)` depends on in the Go runtime. -/
structure Runtime where
  /-- `runtime.maxAlloc`, the largest size of one allocation; it depends on the
  platform. -/
  maxAlloc : Nat
  /-- Whether the heap can give `n` more bytes now. -/
  hasMemory : Nat → Bool

/-- `make([]byte, size)`: `runtime.makeslice` panics for a length that is negative or
above `maxAlloc`; otherwise the slice is `size` zero bytes, if the heap has them. -/
def makeBytes (rt : Runtime) (size : Int) : Except Panic Bytes :=
  if size < 0 ∨ (rt.maxAlloc : Int) < size then .error .makesliceLenOutOfRange
  else if rt.hasMemory size.toNat then .ok (List.replicate size.toNat 0)
  else .error .outOfMemory

/-! ## `net.SplitHostPort` (Go standard library, `net/ipsock.go`) -/

/-- `bytealg.IndexByteString`: index of the first `c` in `s`, `none` for Go's `-1`. -/
def bytealg.IndexByteString : GoString → Char → Option Nat
  | [], _ => none
  | x :: xs, c => if x = c then some 0 else (bytealg.IndexByteString xs c).map (· + 1)

/-- `bytealg.LastIndexByteString`: index of the last `c` in `s`, `none` for Go's `-1`. -/
def bytealg.LastIndexByteString : GoString → Char → Option Nat
  | [], _ => none
  | x :: xs, c =>
    match bytealg.LastIndexByteString xs c with
    | some i => some (i + 1)
    | none => if x = c then some 0 else none

/-- `net.AddrError`. -/
structure net.AddrError where
  Err : GoString
  Addr : GoString
deriving DecidableEq, Repr

/-- `(*AddrError).Error`: the reason, prefixed by the address when there is one. -/
def net.AddrError.Error (e : net.AddrError) : GoString :=
  if e.Addr ≠ [] then "address ".toList ++ e.Addr ++ ": ".toList ++ e.Err else e.Err

def net.missingPort : GoString := "missing port in address".toList

def net.tooManyColons : GoString := "too many colons in address".toList

/-- The tail of `net.SplitHostPort` shared by both branches: no `[` from position `j`
on, no `]` from position `k` on, and the port is what follows the last colon `i`. -/
def net.SplitHostPort.finish (hostport : GoString) (i j k : Nat) (host : GoString) :
    Except net.AddrError (GoString × GoString) :=
  if (bytealg.IndexByteString (hostport.drop j) '[').isSome then
    .error ⟨"unexpected '[' in address".toList, hostport⟩
  else if (bytealg.IndexByteString (hostport.drop k) ']').isSome then
    .error ⟨"unexpected ']' in address".toList, hostport⟩
  else
    .ok (host, hostport.drop (i + 1))

/-- `net.SplitHostPort`: splits `host:port`, `host%zone:port`, `[host]:port` or
`[host%zone]:port` into host and port. -/
def net.SplitHostPort (hostport : GoString) : Except net.AddrError (GoString × GoString) :=
  -- The port starts after the last colon.
  match bytealg.LastIndexByteString hostport ':' with
  | none => .error ⟨net.missingPort, hostport⟩
  | some i =>
    if hostport.head? = some '[' then
      -- Expect the first ']' just before the last ':'.
      match bytealg.IndexByteString hostport ']' with
      | none => .error ⟨"missing ']' in address".toList, hostport⟩
      | some end_ =>
        if end_ + 1 = hostport.length then
          .error ⟨net.missingPort, hostport⟩
        else if end_ + 1 = i then
          net.SplitHostPort.finish hostport i 1 (end_ + 1) ((hostport.take end_).drop 1)
        else if hostport.get? (end_ + 1) = some ':' then
          .error ⟨net.tooManyColons, hostport⟩
        else
          .error ⟨net.missingPort, hostport⟩
    else
      let host := hostport.take i
      if (bytealg.IndexByteString host ':').isSome then
        .error ⟨net.tooManyColons, hostport⟩
      else
        net.SplitHostPort.finish hostport i 0 0 host

/-! ## The dial step of `PerformRequest` -/

/-- The `DialContext` closure that `PerformRequest` installs in its transport
(`api.go` lines 153-160).  `raddr` is the captured `c.Addr`; `dial` stands for
`net.Dialer.DialContext`, acting on a state `ω` of the network; `network` and `addr`
are what the HTTP stack asks for.  A failure of the split is returned as it is and the
dialer is not called. -/
def PerformRequest.DialContext {ω Conn ε : Type} (raddr : GoString)
    (dial : GoString → GoString → ω → Except ε Conn × ω)
    (network addr : GoString) (w : ω) : Except (net.AddrError ⊕ ε) Conn × ω :=
  match net.SplitHostPort addr with
  | .error err => (.error (.inl err), w)
  | .ok (_, port) =>
    let (r, w') := dial network (raddr ++ ":".toList ++ port) w
    (r.mapError .inr, w')

/-- A dialer that records every address it is asked to open and always succeeds. -/
def recordingDialer (network address : GoString) (w : List (GoString × GoString)) :
    Except GoError Unit × List (GoString × GoString) :=
  (.ok (), w ++ [(network, address)])


/-! ## The request context -/

/-- The struct `HTTPSCtx`.  `Headers` is the map allocated by `NewHTTPSCtx`, the
package's only constructor; `body` is `none` for a nil slice. -/
structure HTTPSCtx where
  Method : GoString
  Addr : GoString
  HostPath : GoString
  Headers : GoMap GoString
  body : Option Bytes
  skipVerify : Bool
  timeout : Int
deriving DecidableEq

def NewHTTPSCtx (method hostPath addr : GoString) : HTTPSCtx :=
  { Method := method
    Addr := addr
    HostPath := hostPath
    Headers := ∅
    body := none
    skipVerify := false
    timeout := 30 }

def HTTPSCtx.SetSkipVerify (c : HTTPSCtx) (skip : Bool) : HTTPSCtx :=
  { c with skipVerify := skip }

/-- `c.Headers[header] = value`. -/
def HTTPSCtx.SetHeader (c : HTTPSCtx) (header value : GoString) : HTTPSCtx :=
  { c with Headers := c.Headers.insert header value }

def HTTPSCtx.SetBody (c : HTTPSCtx) (body : Option Bytes) : HTTPSCtx :=
  { c with body := body }

def HTTPSCtx.SetTimeout (c : HTTPSCtx) (timeout : Int) : HTTPSCtx :=
  { c with timeout := timeout }

/-- One call of a setter, as a value, to speak about sequences of calls. -/
inductive SetterCall where
  | SetSkipVerify (skip : Bool)
  | SetHeader (header value : GoString)
  | SetBody (body : Option Bytes)
  | SetTimeout (timeout : Int)
deriving DecidableEq

def SetterCall.run (c : HTTPSCtx) : SetterCall → HTTPSCtx
  | .SetSkipVerify skip => c.SetSkipVerify skip
  | .SetHeader header value => c.SetHeader header value
  | .SetBody body => c.SetBody body
  | .SetTimeout timeout => c.SetTimeout timeout

/-- The context after a sequence of setter calls, earliest first. -/
def runCalls (c : HTTPSCtx) (calls : List SetterCall) : HTTPSCtx :=
  calls.foldl SetterCall.run c

/-- The argument of the most recent `SetSkipVerify` in a sequence of calls, if any. -/
def lastSkipVerify : List SetterCall → Option Bool
  | [] => none
  | call :: rest =>
    match lastSkipVerify rest with
    | some b => some b
    | none =>
      match call with
      | .SetSkipVerify skip => some skip
      | _ => none

/-! ## The response handle -/

/-- The interface `io.ReadCloser`, for a stream whose state has type `σ`.  `Read(p)`
is given the buffer `p` and returns the buffer as the call left it, Go's `n`, and
the error, if any. -/
structure io.ReadCloser (σ : Type) where
  Read : σ → Bytes → (Bytes × Int × Option GoError) × σ
  Close : σ → Option GoError × σ

/-- The interface `HeaderIterator`, for a visitor whose state has type `τ`. -/
structure HeaderIterator (τ : Type) where
  Iterate : τ → GoString → GoString → Bool × τ

/-- The struct `http.Response` of the standard library, as far as the package reads
it. -/
structure http.Response (σ : Type) where
  StatusCode : Int
  Proto : GoString
  Header : GoMap (List GoString)
  Body : σ
  ContentLength : Int

/-- The struct `HTTPResponse`. -/
structure HTTPResponse (σ : Type) where
  StatusCode : Int
  Proto : GoString
  Header : GoMap GoString
  body : σ
  ContentLength : Int

/-- The struct `ReadResult`. -/
structure ReadResult where
  Buf : Bytes
  Error : GoString
  Size : Int
deriving DecidableEq, Repr

def ReadResult.GetBuffer (r : ReadResult) : Bytes := r.Buf

/-- The loop of `NewHTTPResponse`: `header[k] = v[0]` for each entry of the raw
header, in the order the range statement yields them. -/
def NewHTTPResponse.loop :
    List (Σ _ : GoString, List GoString) → GoMap GoString → Except Panic (GoMap GoString)
  | [], header => .ok header
  | ⟨_, []⟩ :: _, _ => .error .indexOutOfRange
  | ⟨k, v0 :: _⟩ :: rest, header => NewHTTPResponse.loop rest (header.insert k v0)

/-- `NewHTTPResponse`; `order` is the order in which the range statement yields the
entries of `resp.Header`. -/
def NewHTTPResponse {σ : Type} (resp : http.Response σ)
    (order : List (Σ _ : GoString, List GoString)) : Except Panic (HTTPResponse σ) :=
  match NewHTTPResponse.loop order ∅ with
  | .error p => .error p
  | .ok header =>
    .ok { StatusCode := resp.StatusCode
          Proto := resp.Proto
          ContentLength := resp.ContentLength
          Header := header
          body := resp.Body }

/-- `GetHeader`, with the handle after the call. -/
def HTTPResponse.GetHeader {σ : Type} (r : HTTPResponse σ) (hdr : GoString) :
    GoString × HTTPResponse σ :=
  match r.Header.lookup hdr with
  | none => ([], r)
  | some val => (val, r)

/-- The loop of `Range` over the entries in the order the range statement yields
them: it calls `Iterate` on each entry in turn and stops after a call that answers
false.  `Range` returns nothing; what it leaves behind is the visitor's state. -/
def HTTPResponse.Range.loop {τ : Type} (it : HeaderIterator τ) :
    List (Σ _ : GoString, GoString) → τ → τ
  | [], st => st
  | ⟨k, val⟩ :: rest, st =>
    match it.Iterate st k val with
    | (false, st') => st'
    | (true, st') => HTTPResponse.Range.loop it rest st'

/-- `Range`; `order` is the order in which the range statement yields the entries of
`r.Header`, `st` the visitor's state before the call; the result is the visitor's
state after it. -/
def HTTPResponse.Range {σ τ : Type} (_r : HTTPResponse σ) (it : HeaderIterator τ)
    (order : List (Σ _ : GoString, GoString)) (st : τ) : τ :=
  HTTPResponse.Range.loop it order st

/-- `Read`, with the handle after the call.  `make([]byte, size)` may panic;
otherwise the stream is read once into the zeroed buffer, and the whole buffer, as
the stream left it, is returned next to the stream's count and error. -/
def HTTPResponse.Read {σ : Type} (rt : Runtime) (rc : io.ReadCloser σ) (r : HTTPResponse σ)
    (size : Int) : Except Panic (ReadResult × HTTPResponse σ) :=
  match makeBytes rt size with
  | .error p => .error p
  | .ok buf =>
    match rc.Read r.body buf with
    | ((buf, n, err), body') =>
      match err with
      | some err => .ok ({ Error := err.Error, Size := n, Buf := buf }, { r with body := body' })
      | none => .ok ({ Error := [], Size := n, Buf := buf }, { r with body := body' })

/-- `Close`, with the handle after the call. -/
def HTTPResponse.Close {σ : Type} (rc : io.ReadCloser σ) (r : HTTPResponse σ) :
    Int × HTTPResponse σ :=
  match rc.Close r.body with
  | (some _, body') => (-1, { r with body := body' })
  | (none, body') => (0, { r with body := body' })

/-- The struct `Response`; `Resp` is `none` for a nil pointer. -/
structure Response (σ : Type) where
  Resp : Option (HTTPResponse σ)
  Error : GoString

/-! ## `PerformRequest` -/

/-- `url.Error` of the standard library. -/
structure url.Error where
  Op : GoString
  URL : GoString
  Err : GoError
deriving DecidableEq

/-- `(*url.Error).Error`, that is `fmt.Sprintf("%s %q: %s", e.Op, e.URL, e.Err)`;
`quote` is `strconv.Quote`. -/
def url.Error.Error (quote : GoString → GoString) (e : url.Error) : GoString :=
  e.Op ++ " ".toList ++ quote e.URL ++ ": ".toList ++ e.Err.Error

/-- The errors of `http.NewRequest`: a method that is not a token, or a URL that
`url.Parse` rejects. -/
inductive http.NewRequestError where
  | invalidMethod (method : GoString)
  | parse (err : url.Error)
deriving DecidableEq

/-- The message of an error of `http.NewRequest`; the first is
`fmt.Errorf("net/http: invalid method %q", method)`. -/
def http.NewRequestError.Error (quote : GoString → GoString) :
    http.NewRequestError → GoString
  | .invalidMethod method => "net/http: invalid method ".toList ++ quote method
  | .parse err => err.Error quote

/-- The struct `tls.Config`, as far as the package sets it. -/
structure tls.Config where
  InsecureSkipVerify : Bool
deriving DecidableEq

/-- The struct `http.Transport`, as far as the package sets it. -/
structure http.Transport (ω Conn ε : Type) where
  DialContext : GoString → GoString → ω → Except (net.AddrError ⊕ ε) Conn × ω
  TLSClientConfig : tls.Config

/-- The struct `http.Client`, as far as the package sets it; `Timeout` is a
`time.Duration`, a number of nanoseconds. -/
structure http.Client (ω Conn ε : Type) where
  Transport : http.Transport ω Conn ε
  Timeout : Int

/-- Conversion to `int64` (two's complement, 64 bits). -/
def int64 (x : Int) : Int := (x + 2 ^ 63) % 2 ^ 64 - 2 ^ 63

/-- `time.Second` in nanoseconds. -/
def time.Second : Int := 1000000000

/-- What `PerformRequest` uses and does not implement: the HTTP stack of the standard
library, the dialer, and the order of iteration over maps.  `ω` is the state of the
network, `Conn` a connection, `ε` the dialer's errors, `Req` a `*http.Request`, `σ`
the state of a response body. -/
structure Stack (ω Conn ε Req σ : Type) where
  /-- `strconv.Quote`, the verb `%q`. -/
  quote : GoString → GoString
  /-- `http.NewRequest(method, url, body)`; `none` is the nil reader. -/
  NewRequest : GoString → GoString → Option Bytes → Except http.NewRequestError Req
  /-- `req.Header.Add(k, v)`. -/
  HeaderAdd : Req → GoString → GoString → Req
  /-- `net.Dialer.DialContext`. -/
  dial : GoString → GoString → ω → Except ε Conn × ω
  /-- `client.Do(req)`; every error it returns is a `*url.Error`. -/
  Do : http.Client ω Conn ε → Req → Except url.Error (http.Response σ)
  /-- The order in which a range statement yields the context's headers. -/
  rangeHeaders : GoMap GoString → List (Σ _ : GoString, GoString)
  /-- The order in which a range statement yields a raw response's headers. -/
  rangeRaw : GoMap (List GoString) → List (Σ _ : GoString, List GoString)

/-- The client that `PerformRequest` builds (`api.go` lines 151-167). -/
def PerformRequest.client {ω Conn ε : Type} (dial : GoString → GoString → ω → Except ε Conn × ω)
    (c : HTTPSCtx) : http.Client ω Conn ε :=
  let raddr := c.Addr
  let tp : http.Transport ω Conn ε :=
    { DialContext := PerformRequest.DialContext raddr dial
      TLSClientConfig := { InsecureSkipVerify := c.skipVerify } }
  { Transport := tp
    Timeout := int64 (int64 c.timeout * time.Second) }

/-- The request that `PerformRequest` hands to the client: the one `http.NewRequest`
made, with every header of the context added. -/
def PerformRequest.addHeaders {ω Conn ε Req σ : Type} (S : Stack ω Conn ε Req σ)
    (c : HTTPSCtx) (req : Req) : Req :=
  (S.rangeHeaders c.Headers).foldl (fun rq kv => S.HeaderAdd rq kv.1 kv.2) req

/-- `PerformRequest`. -/
def HTTPSCtx.PerformRequest {ω Conn ε Req σ : Type} (S : Stack ω Conn ε Req σ)
    (c : HTTPSCtx) : Except Panic (Response σ) :=
  let body := c.body
  let url := "https://".toList ++ c.HostPath
  match S.NewRequest c.Method url body with
  | .error err => .ok { Resp := none, Error := err.Error S.quote }
  | .ok req =>
    let req := PerformRequest.addHeaders S c req
    let client := PerformRequest.client S.dial c
    match S.Do client req with
    | .error err => .ok { Resp := none, Error := err.Error S.quote }
    | .ok resp =>
      match NewHTTPResponse resp (S.rangeRaw resp.Header) with
      | .error p => .error p
      | .ok r => .ok { Resp := some r, Error := [] }

/-! ## Streams, visitors and callers to state properties with -/

/-- `io.EOF`. -/
def io.EOF : GoError := ⟨"EOF".toList⟩

/-- The contract of a body stream that delivers a body and meets no I/O failure, for
reads into buffers of `len` bytes.  `R s pending` says that in state `s` the bytes
`pending` are still to be delivered.  Every read leaves the buffer at its length and
stores the next `n` pending bytes at its start, `n` at most `len`; before the end it
delivers at least one byte and reports no error, or reports `io.EOF` together with
the final bytes; at the end it delivers nothing and reports `io.EOF`, and the stream
stays at the end. -/
def DeliversBody {σ : Type} (rc : io.ReadCloser σ) (len : Nat) (R : σ → Bytes → Prop) : Prop :=
  ∀ (s : σ) (pending buf : Bytes), R s pending → buf.length = len →
    ∃ (buf' : Bytes) (n : Nat) (err : Option GoError) (s' : σ),
      rc.Read s buf = ((buf', (n : Int), err), s') ∧
      buf'.length = len ∧ n ≤ len ∧ n ≤ pending.length ∧
      buf'.take n = pending.take n ∧
      R s' (pending.drop n) ∧
      (pending = [] → err = some io.EOF) ∧
      (pending ≠ [] → 1 ≤ n ∧ (err = none ∨ (err = some io.EOF ∧ n = pending.length)))

/-- `bytes.Reader` of the standard library under `io.NopCloser`, the state being the
bytes not yet read: `Read` reports `io.EOF` when none is left and otherwise copies as
many as fit into the buffer; `Close` does nothing. -/
def bytesReader : io.ReadCloser Bytes :=
  { Read := fun s buf =>
      if s = [] then ((buf, 0, some io.EOF), s)
      else
        ((s.take (min buf.length s.length) ++ buf.drop (min buf.length s.length),
          ((min buf.length s.length : Nat) : Int), none), s.drop (min buf.length s.length))
    Close := fun s => (none, s) }

/-- A 64-bit runtime (`maxAlloc` is 2^48 there) with memory to spare. -/
def amd64 : Runtime :=
  { maxAlloc := 2 ^ 48, hasMemory := fun _ => true }

/-- A caller that calls `Read(size)` until a result has its `Error` set, at most
`fuel` times: the results in order and the handle after the last call, or `none`
when no result within `fuel` calls has `Error` set or a call panics. -/
def readUntilError {σ : Type} (rt : Runtime) (rc : io.ReadCloser σ) :
    Nat → HTTPResponse σ → Int → Option (List ReadResult × HTTPResponse σ)
  | 0, _, _ => none
  | fuel + 1, r, size =>
    match r.Read rt rc size with
    | .error _ => none
    | .ok (res, r') =>
      if res.Error ≠ [] then some ([res], r')
      else (readUntilError rt rc fuel r' size).map (fun p => (res :: p.1, p.2))

/-- The results of `count` successive calls of `Read(size)`. -/
def readTimes {σ : Type} (rt : Runtime) (rc : io.ReadCloser σ) :
    Nat → HTTPResponse σ → Int → Except Panic (List ReadResult)
  | 0, _, _ => .ok []
  | count + 1, r, size =>
    match r.Read rt rc size with
    | .error p => .error p
    | .ok (res, r') => (readTimes rt rc count r' size).map (res :: ·)

/-- A handle for a `200` response whose body is a `bytes.Reader` over `body`. -/
def handleOf (body : Bytes) : HTTPResponse Bytes :=
  { StatusCode := 200
    Proto := "HTTP/1.1".toList
    Header := ∅
    body := body
    ContentLength := body.length }

/-- One call of `Iterate` as the visitor saw it: its state before the call, the
arguments, its answer and its state after the call. -/
structure VisitorCall (τ : Type) where
  before : τ
  key : GoString
  value : GoString
  answer : Bool
  after : τ

/-- The visitor `it` made to keep a record of the calls it receives: it answers and
moves as `it` does, and appends each call to the record it carries in its state. -/
def recording {τ : Type} (it : HeaderIterator τ) : HeaderIterator (τ × List (VisitorCall τ)) :=
  { Iterate := fun s k v =>
      ((it.Iterate s.1 k v).1,
        ((it.Iterate s.1 k v).2,
          s.2 ++ [{ before := s.1, key := k, value := v,
                    answer := (it.Iterate s.1 k v).1, after := (it.Iterate s.1 k v).2 }])) }

/-- The entries a record of calls shows as visited, in the order of the visits. -/
def calledEntries {τ : Type} (calls : List (VisitorCall τ)) : List (Σ _ : GoString, GoString) :=
  calls.map (fun c => ⟨c.key, c.value⟩)

/-- The calls a visitor receives when it is shown the entries of a list in turn, from
the state `st`, until it answers false. -/
def visitorTrace {τ : Type} (it : HeaderIterator τ) :
    List (Σ _ : GoString, GoString) → τ → List (VisitorCall τ)
  | [], _ => []
  | ⟨k, v⟩ :: rest, st =>
    { before := st, key := k, value := v,
      answer := (it.Iterate st k v).1, after := (it.Iterate st k v).2 } ::
      (if (it.Iterate st k v).1 then visitorTrace it rest (it.Iterate st k v).2 else [])

/-- A visitor that counts its calls and asks to stop at the call numbered `stopAt`. -/
def countingVisitor (stopAt : Nat) : HeaderIterator Nat :=
  { Iterate := fun n _ _ => (decide (n + 1 ≠ stopAt), n + 1) }

/-- A raw response with two headers, the first of them with two values. -/
def rawExample : http.Response Bytes :=
  { StatusCode := 200
    Proto := "HTTP/1.1".toList
    Header := AList.insert "Content-Type".toList ["text/plain".toList, "text/html".toList]
      (AList.insert "Content-Length".toList ["5".toList] ∅)
    Body := [104, 101, 108, 108, 111]
    ContentLength := 5 }

/-- A handle with three headers. -/
def headersExample : HTTPResponse Bytes :=
  { handleOf [] with
    Header := AList.insert "A".toList "1".toList
      (AList.insert "B".toList "2".toList (AList.insert "C".toList "3".toList ∅)) }

/-- A stack to run `PerformRequest` on: it rejects a method with a blank in it, answers
`rawExample` to a client that skips verification, and fails the handshake of any
other client. -/
def exampleStack :
    Stack (List (GoString × GoString)) Unit GoError (GoString × GoString) Bytes :=
  { quote := fun s => Char.ofNat 34 :: s ++ [Char.ofNat 34]
    NewRequest := fun method url _ =>
      if ' ' ∈ method then .error (.invalidMethod method) else .ok (method, url)
    HeaderAdd := fun req _ _ => req
    dial := recordingDialer
    Do := fun client req =>
      if client.Transport.TLSClientConfig.InsecureSkipVerify then .ok rawExample
      else .error ⟨"Get".toList, req.2,
        ⟨"tls: failed to verify certificate: x509: certificate signed by unknown authority".toList⟩⟩
    rangeHeaders := fun h => h.entries
    rangeRaw := fun h => h.entries.reverse }

/-! # Theorems -/

/-! ## Facts about `net.SplitHostPort` -/

theorem indexByteString_eq_none {s : GoString} {c : Char} :
    bytealg.IndexByteString s c = none ↔ c ∉ s := by
  induction s with
  | nil => simp [bytealg.IndexByteString]
  | cons x xs ih =>
    by_cases hx : x = c
    · simp [bytealg.IndexByteString, hx]
    · have hx' : ¬ c = x := fun h => hx h.symm
      simp [bytealg.IndexByteString, hx, hx', ih]

theorem indexByteString_isSome {s : GoString} {c : Char} :
    (bytealg.IndexByteString s c).isSome = true ↔ c ∈ s := by
  rw [← not_iff_not, ← indexByteString_eq_none]
  cases bytealg.IndexByteString s c <;> simp

theorem lastIndexByteString_eq_none {s : GoString} {c : Char} :
    bytealg.LastIndexByteString s c = none ↔ c ∉ s := by
  induction s with
  | nil => simp [bytealg.LastIndexByteString]
  | cons x xs ih =>
    by_cases hc : c ∈ xs
    · have : bytealg.LastIndexByteString xs c ≠ none := fun h => (ih.mp h) hc
      cases hl : bytealg.LastIndexByteString xs c with
      | none => exact absurd hl this
      | some i => simp [bytealg.LastIndexByteString, hl, hc]
    · have hl := ih.mpr hc
      by_cases hx : x = c
      · simp [bytealg.LastIndexByteString, hl, hx]
      · have hx' : ¬ c = x := fun h => hx h.symm
        simp [bytealg.LastIndexByteString, hl, hx, hx', hc]

/-- The last `c` of `h ++ c :: p` sits at position `h.length` when `p` has no `c`. -/
theorem lastIndexByteString_append {h p : GoString} {c : Char} (hp : c ∉ p) :
    bytealg.LastIndexByteString (h ++ c :: p) c = some h.length := by
  induction h with
  | nil =>
    simp [bytealg.LastIndexByteString, lastIndexByteString_eq_none.mpr hp]
  | cons x xs ih =>
    simp [bytealg.LastIndexByteString, ih]

/-- The last `c` of a string, when there is one, is followed by no further `c`. -/
theorem lastIndexByteString_drop {s : GoString} {c : Char} {i : Nat}
    (h : bytealg.LastIndexByteString s c = some i) : c ∉ s.drop (i + 1) := by
  induction s generalizing i with
  | nil => simp [bytealg.LastIndexByteString] at h
  | cons x xs ih =>
    cases hl : bytealg.LastIndexByteString xs c with
    | some j =>
      simp [bytealg.LastIndexByteString, hl] at h
      subst h
      simpa using ih hl
    | none =>
      by_cases hx : x = c
      · simp [bytealg.LastIndexByteString, hl, hx] at h
        subst h
        simpa using lastIndexByteString_eq_none.mp hl
      · simp [bytealg.LastIndexByteString, hl, hx] at h

theorem mem_drop_of_le {s : GoString} {c : Char} {m n : Nat} (hmn : n ≤ m)
    (h : c ∈ s.drop m) : c ∈ s.drop n := by
  have : s.drop m = (s.drop n).drop (m - n) := by
    rw [List.drop_drop]; congr 1; omega
  rw [this] at h
  exact List.mem_of_mem_drop h

theorem finish_ok {hostport host h p : GoString} {i j k : Nat}
    (hf : net.SplitHostPort.finish hostport i j k host = .ok (h, p)) :
    h = host ∧ p = hostport.drop (i + 1) ∧ '[' ∉ hostport.drop j ∧ ']' ∉ hostport.drop k := by
  unfold net.SplitHostPort.finish at hf
  split at hf
  · cases hf
  · split at hf
    · cases hf
    · rename_i h1 h2
      rw [indexByteString_isSome] at h1 h2
      cases hf
      exact ⟨rfl, rfl, h1, h2⟩

/-- A port that `net.SplitHostPort` returns contains no colon and no bracket. -/
theorem splitHostPort_port_plain {addr host port : GoString}
    (h : net.SplitHostPort addr = .ok (host, port)) :
    ':' ∉ port ∧ '[' ∉ port ∧ ']' ∉ port := by
  unfold net.SplitHostPort at h
  split at h
  · cases h
  · rename_i i hi
    have hcolon := lastIndexByteString_drop hi
    split at h
    · split at h
      · cases h
      · rename_i e he
        split at h
        · cases h
        · split at h
          · rename_i hne hei
            obtain ⟨-, hp, hl, hr⟩ := finish_ok h
            subst hp
            refine ⟨hcolon, fun hm => hl (mem_drop_of_le (by omega) hm),
              fun hm => hr (mem_drop_of_le (by omega) hm)⟩
          · split at h <;> cases h
    · simp only at h
      split at h
      · cases h
      · obtain ⟨-, hp, hl, hr⟩ := finish_ok h
        subst hp
        refine ⟨hcolon, fun hm => hl (mem_drop_of_le (by omega) hm),
          fun hm => hr (mem_drop_of_le (by omega) hm)⟩

/-- Joining a host without colon or bracket to a port without colon or bracket by a
colon gives a string that `net.SplitHostPort` splits back into the two. -/
theorem splitHostPort_join {host port : GoString}
    (hc : ':' ∉ host) (hl : '[' ∉ host) (hr : ']' ∉ host)
    (pc : ':' ∉ port) (pl : '[' ∉ port) (pr : ']' ∉ port) :
    net.SplitHostPort (host ++ ":".toList ++ port) = .ok (host, port) := by
  have hs : host ++ ":".toList ++ port = host ++ ':' :: port := by
    show host ++ [':'] ++ port = host ++ ':' :: port
    simp
  rw [hs]
  have hhead : ¬ (host ++ ':' :: port).head? = some '[' := by
    cases host with
    | nil => simp
    | cons x xs =>
      simp only [List.cons_append, List.head?_cons, Option.some.injEq]
      intro hx
      exact hl (by simp [hx])
  have hl' : '[' ∉ host ++ ':' :: port := by simp [hl, pl]
  have hr' : ']' ∉ host ++ ':' :: port := by simp [hr, pr]
  unfold net.SplitHostPort
  rw [lastIndexByteString_append pc]
  simp only [hhead, if_false]
  have htake : (host ++ ':' :: port).take host.length = host := by simp
  have hnone : (bytealg.IndexByteString host ':').isSome = false := by
    rw [indexByteString_eq_none.mpr hc]; rfl
  rw [htake]
  simp only [hnone, Bool.false_eq_true, if_false]
  unfold net.SplitHostPort.finish
  have h1 : (bytealg.IndexByteString ((host ++ ':' :: port).drop 0) '[').isSome = false := by
    rw [List.drop_zero, indexByteString_eq_none.mpr hl']; rfl
  have h2 : (bytealg.IndexByteString ((host ++ ':' :: port).drop 0) ']').isSome = false := by
    rw [List.drop_zero, indexByteString_eq_none.mpr hr']; rfl
  simp only [h1, h2, Bool.false_eq_true, if_false]
  have hdrop : (host ++ ':' :: port).drop (host.length + 1) = port := by
    rw [← List.drop_drop]
    simp
  rw [hdrop]


/-! ## The dial step -/

/-- C1: for every connect address `A` and every address the HTTP stack asks the dial
step to open, if the address splits into host and port the dial step is the dialer
called on `A ++ ":" ++ port`, so two requested addresses with the same port give the
same dial whatever their hosts; if the address does not split, the dial step returns
the split's error, and the network is left as it was, whatever the dialer. -/
theorem dialContext_dials_addr_and_port {ω Conn ε : Type} (A : GoString)
    (dial : GoString → GoString → ω → Except ε Conn × ω) (network addr : GoString) (w : ω) :
    (∀ host port, net.SplitHostPort addr = .ok (host, port) →
      PerformRequest.DialContext A dial network addr w =
        ((dial network (A ++ ":".toList ++ port) w).1.mapError .inr,
          (dial network (A ++ ":".toList ++ port) w).2)) ∧
    (∀ err, net.SplitHostPort addr = .error err →
      PerformRequest.DialContext A dial network addr w = (.error (.inl err), w)) ∧
    (∀ addr' host host' port, net.SplitHostPort addr = .ok (host, port) →
      net.SplitHostPort addr' = .ok (host', port) →
      PerformRequest.DialContext A dial network addr w =
        PerformRequest.DialContext A dial network addr' w) := by
  refine ⟨?_, ?_, ?_⟩
  · intro host port h
    simp [PerformRequest.DialContext, h]
  · intro err h
    simp [PerformRequest.DialContext, h]
  · intro addr' host host' port h h'
    simp [PerformRequest.DialContext, h, h']

/-- The dial step at `10.0.0.1`, asked for `example.com:443` and for `other.org:443`:
both open `10.0.0.1:443`; asked for `example.com`, it fails and opens nothing. -/
theorem dialContext_dials_addr_and_port_witness :
    PerformRequest.DialContext "10.0.0.1".toList recordingDialer "tcp".toList
        "example.com:443".toList [] =
      (.ok (), [("tcp".toList, "10.0.0.1:443".toList)]) ∧
    PerformRequest.DialContext "10.0.0.1".toList recordingDialer "tcp".toList
        "example.com:443".toList [] =
      PerformRequest.DialContext "10.0.0.1".toList recordingDialer "tcp".toList
        "other.org:443".toList [] ∧
    PerformRequest.DialContext "10.0.0.1".toList recordingDialer "tcp".toList
        "example.com".toList [] =
      (.error (.inl ⟨net.missingPort, "example.com".toList⟩), []) :=
  ⟨((dialContext_dials_addr_and_port "10.0.0.1".toList recordingDialer "tcp".toList
      "example.com:443".toList []).1 "example.com".toList "443".toList (by decide)).trans
      (by decide),
    (dialContext_dials_addr_and_port "10.0.0.1".toList recordingDialer "tcp".toList
      "example.com:443".toList []).2.2 "other.org:443".toList "example.com".toList
      "other.org".toList "443".toList (by decide) (by decide),
    (dialContext_dials_addr_and_port "10.0.0.1".toList recordingDialer "tcp".toList
      "example.com".toList []).2.1 ⟨net.missingPort, "example.com".toList⟩ (by decide)⟩

/-- C10 at the connect address `::1`: asked for `example.com:443`, the dial step
opens the string `::1:443`, and `net.SplitHostPort` rejects that string with "too many
colons in address" instead of returning `::1` and `443`. -/
theorem dialContext_ipv6_literal_not_splittable :
    net.SplitHostPort "example.com:443".toList = .ok ("example.com".toList, "443".toList) ∧
    (PerformRequest.DialContext "::1".toList recordingDialer "tcp".toList
        "example.com:443".toList []).2 = [("tcp".toList, "::1:443".toList)] ∧
    net.SplitHostPort "::1:443".toList = .error ⟨net.tooManyColons, "::1:443".toList⟩ := by
  decide

/-- For a connect address without colon or bracket (a host name, an IPv4 literal) and
a port that `net.SplitHostPort` returned, the address the dial step builds splits back
into that connect address and that port. -/
theorem dialContext_address_splits_back {A addr host port : GoString}
    (hc : ':' ∉ A) (hl : '[' ∉ A) (hr : ']' ∉ A)
    (h : net.SplitHostPort addr = .ok (host, port)) :
    net.SplitHostPort (A ++ ":".toList ++ port) = .ok (A, port) := by
  obtain ⟨pc, pl, pr⟩ := splitHostPort_port_plain h
  exact splitHostPort_join hc hl hr pc pl pr

/-! ## The setters and the TLS configuration -/

theorem runCalls_cons (c : HTTPSCtx) (calls : List SetterCall) (call : SetterCall) :
    runCalls c (call :: calls) = runCalls (call.run c) calls := rfl

theorem skipVerify_runCalls (c : HTTPSCtx) (calls : List SetterCall) :
    (runCalls c calls).skipVerify = (lastSkipVerify calls).getD c.skipVerify := by
  induction calls generalizing c with
  | nil => rfl
  | cons call rest ih =>
    rw [runCalls_cons, ih]
    cases hl : lastSkipVerify rest with
    | some b => simp [lastSkipVerify, hl]
    | none => cases call <;> simp [lastSkipVerify, hl, SetterCall.run, HTTPSCtx.SetSkipVerify,
        HTTPSCtx.SetHeader, HTTPSCtx.SetBody, HTTPSCtx.SetTimeout]

/-- C2: the TLS configuration of the client that `PerformRequest` builds has
`InsecureSkipVerify` set exactly when the context's `skipVerify` is set, and that
client is the only one `PerformRequest` hands to the HTTP stack; `skipVerify` is
false in a context fresh from `NewHTTPSCtx`, and after any sequence of setter calls
it is the argument of the last `SetSkipVerify` among them, or what it was before when
there is none. -/
theorem tls_skips_verification_iff_skipVerify {ω Conn ε Req σ : Type} :
    (∀ (dial : GoString → GoString → ω → Except ε Conn × ω) (c : HTTPSCtx),
      (PerformRequest.client dial c).Transport.TLSClientConfig.InsecureSkipVerify = true ↔
        c.skipVerify = true) ∧
    (∀ (S : Stack ω Conn ε Req σ) (c : HTTPSCtx),
      c.PerformRequest S =
        c.PerformRequest { S with Do := fun _ req => S.Do (PerformRequest.client S.dial c) req }) ∧
    (∀ method hostPath addr : GoString, (NewHTTPSCtx method hostPath addr).skipVerify = false) ∧
    (∀ (c : HTTPSCtx) (calls : List SetterCall),
      (runCalls c calls).skipVerify = (lastSkipVerify calls).getD c.skipVerify) ∧
    (∀ (c : HTTPSCtx) (calls calls' : List SetterCall) (skip : Bool),
      lastSkipVerify calls' = none →
      (runCalls c (calls ++ .SetSkipVerify skip :: calls')).skipVerify = skip) := by
  refine ⟨?_, ?_, ?_, skipVerify_runCalls, ?_⟩
  · intro dial c
    simp [PerformRequest.client]
  · intro S c
    simp only [HTTPSCtx.PerformRequest, PerformRequest.addHeaders]
  · intro method hostPath addr
    rfl
  · intro c calls calls' skip h
    rw [skipVerify_runCalls]
    have : lastSkipVerify (calls ++ .SetSkipVerify skip :: calls') = some skip := by
      induction calls with
      | nil => simp [lastSkipVerify, h]
      | cons x xs ih => simp [lastSkipVerify, ih]
    simp [this]


/-- The setter calls of C2 at work: verification is skipped after
`SetSkipVerify(true)` followed by other setters, and not after a later
`SetSkipVerify(false)`. -/
theorem tls_skips_verification_iff_skipVerify_witness :
    (runCalls (NewHTTPSCtx "GET".toList "example.com/".toList "10.0.0.1".toList)
      ([] ++ .SetSkipVerify true ::
        [.SetHeader "Accept".toList "*/*".toList, .SetTimeout 5])).skipVerify = true ∧
    (runCalls (NewHTTPSCtx "GET".toList "example.com/".toList "10.0.0.1".toList)
      ([.SetSkipVerify true, .SetBody (some [1])] ++ .SetSkipVerify false ::
        [.SetTimeout 5])).skipVerify = false :=
  ⟨(@tls_skips_verification_iff_skipVerify Unit Unit Unit Unit Unit).2.2.2.2 _ [] _ true
      (by decide),
    (@tls_skips_verification_iff_skipVerify Unit Unit Unit Unit Unit).2.2.2.2 _
      [.SetSkipVerify true, .SetBody (some [1])] _ false (by decide)⟩

/-- C8: a context fresh from `NewHTTPSCtx` stores its three arguments, has no header,
no body, `skipVerify` false and timeout 30; `SetHeader(k, v)` makes the header map hold
`v` for `k`, leaves every other name as it was (one value per name, the last write
wins) and leaves every other field as it was; `SetSkipVerify`, `SetBody` and
`SetTimeout` each store their argument, overwrite what was stored before and leave
every other field as it was. -/
theorem setters_change_only_their_field :
    (∀ method hostPath addr : GoString,
      NewHTTPSCtx method hostPath addr =
        { Method := method, Addr := addr, HostPath := hostPath, Headers := ∅, body := none,
          skipVerify := false, timeout := 30 } ∧
      (NewHTTPSCtx method hostPath addr).Headers.entries = []) ∧
    (∀ (c : HTTPSCtx) (k v : GoString),
      (∀ k', (c.SetHeader k v).Headers.lookup k' =
        if k' = k then some v else c.Headers.lookup k') ∧
      (c.SetHeader k v).Headers.keys.Nodup ∧
      (∀ v', (c.SetHeader k v').SetHeader k v = c.SetHeader k v) ∧
      (c.SetHeader k v).Method = c.Method ∧ (c.SetHeader k v).Addr = c.Addr ∧
      (c.SetHeader k v).HostPath = c.HostPath ∧ (c.SetHeader k v).body = c.body ∧
      (c.SetHeader k v).skipVerify = c.skipVerify ∧ (c.SetHeader k v).timeout = c.timeout) ∧
    (∀ (c : HTTPSCtx) (skip : Bool),
      c.SetSkipVerify skip = { c with skipVerify := skip } ∧
      (c.SetSkipVerify skip).skipVerify = skip ∧
      (∀ skip', (c.SetSkipVerify skip').SetSkipVerify skip = c.SetSkipVerify skip) ∧
      (c.SetSkipVerify skip).Method = c.Method ∧ (c.SetSkipVerify skip).Addr = c.Addr ∧
      (c.SetSkipVerify skip).HostPath = c.HostPath ∧
      (c.SetSkipVerify skip).Headers = c.Headers ∧ (c.SetSkipVerify skip).body = c.body ∧
      (c.SetSkipVerify skip).timeout = c.timeout) ∧
    (∀ (c : HTTPSCtx) (body : Option Bytes),
      (c.SetBody body).body = body ∧
      (∀ body', (c.SetBody body').SetBody body = c.SetBody body) ∧
      (c.SetBody body).Method = c.Method ∧ (c.SetBody body).Addr = c.Addr ∧
      (c.SetBody body).HostPath = c.HostPath ∧ (c.SetBody body).Headers = c.Headers ∧
      (c.SetBody body).skipVerify = c.skipVerify ∧ (c.SetBody body).timeout = c.timeout) ∧
    (∀ (c : HTTPSCtx) (timeout : Int),
      (c.SetTimeout timeout).timeout = timeout ∧
      (∀ timeout', (c.SetTimeout timeout').SetTimeout timeout = c.SetTimeout timeout) ∧
      (c.SetTimeout timeout).Method = c.Method ∧ (c.SetTimeout timeout).Addr = c.Addr ∧
      (c.SetTimeout timeout).HostPath = c.HostPath ∧
      (c.SetTimeout timeout).Headers = c.Headers ∧ (c.SetTimeout timeout).body = c.body ∧
      (c.SetTimeout timeout).skipVerify = c.skipVerify) := by
  refine ⟨fun _ _ _ => ⟨rfl, rfl⟩, ?_, ?_, ?_, ?_⟩
  · intro c k v
    refine ⟨?_, (c.Headers.insert k v).nodupKeys, ?_, rfl, rfl, rfl, rfl, rfl, rfl⟩
    · intro k'
      by_cases hk : k' = k
      · subst hk
        simp [HTTPSCtx.SetHeader, AList.lookup_insert]
      · simp [HTTPSCtx.SetHeader, AList.lookup_insert_ne hk, hk]
    · intro v'
      simp [HTTPSCtx.SetHeader, AList.insert_insert]
  · intro c skip
    exact ⟨rfl, rfl, fun _ => rfl, rfl, rfl, rfl, rfl, rfl, rfl⟩
  · intro c body
    exact ⟨rfl, fun _ => rfl, rfl, rfl, rfl, rfl, rfl, rfl⟩
  · intro c timeout
    exact ⟨rfl, fun _ => rfl, rfl, rfl, rfl, rfl, rfl, rfl⟩

/-! ## `Read` -/

/-- `make([]byte, size)` returns `size` zero bytes for a size within the limit that
the heap has room for. -/
theorem makeBytes_ok (rt : Runtime) (size : Int) (hsize : 0 ≤ size)
    (halloc : size ≤ rt.maxAlloc) (hmem : rt.hasMemory size.toNat = true) :
    makeBytes rt size = .ok (List.replicate size.toNat 0) := by
  have h : ¬ (size < 0 ∨ (rt.maxAlloc : Int) < size) := by omega
  simp only [makeBytes, h, if_false, hmem, if_true]

/-- C9 at `Read(-1)`: whatever the runtime, the handle and its stream, the call panics
in `make([]byte, -1)` and returns no `ReadResult`. -/
theorem read_negative_size_panics {σ : Type} (rt : Runtime) (rc : io.ReadCloser σ)
    (r : HTTPResponse σ) : r.Read rt rc (-1) = .error .makesliceLenOutOfRange := by
  simp [HTTPResponse.Read, makeBytes]

/-- A size above the runtime's limit makes `Read` panic as well. -/
theorem read_size_above_limit_panics {σ : Type} (rt : Runtime) (rc : io.ReadCloser σ)
    (r : HTTPResponse σ) (size : Int) (h : (rt.maxAlloc : Int) < size) :
    r.Read rt rc size = .error .makesliceLenOutOfRange := by
  simp [HTTPResponse.Read, makeBytes, h]

/-- `Read` when the buffer can be made, in one equation. -/
theorem read_eq {σ : Type} (rt : Runtime) (rc : io.ReadCloser σ) (r : HTTPResponse σ)
    (size : Int) (buf buf' : Bytes) (n : Int) (err : Option GoError) (body' : σ)
    (hmake : makeBytes rt size = .ok buf)
    (hread : rc.Read r.body buf = ((buf', n, err), body')) :
    r.Read rt rc size = .ok
      ({ Buf := buf', Error := (err.map GoError.Error).getD [], Size := n },
        { r with body := body' }) := by
  cases err <;> simp only [HTTPResponse.Read, hmake, hread] <;> rfl

/-- For a size the runtime can allocate `Read` returns a `ReadResult`. -/
theorem read_allocatable_size_returns {σ : Type} (rt : Runtime) (rc : io.ReadCloser σ)
    (r : HTTPResponse σ) (size : Int) (hsize : 0 ≤ size) (halloc : size ≤ rt.maxAlloc)
    (hmem : rt.hasMemory size.toNat = true) : ∃ res r', r.Read rt rc size = .ok (res, r') :=
  ⟨_, _, read_eq rt rc r size _ _ _ _ _ (makeBytes_ok rt size hsize halloc hmem) rfl⟩

/-- C7 as stated fails.  `Read(4)` on a stream that delivers the two bytes 1, 2 returns
a buffer of four bytes, 1, 2, 0, 0, not the two bytes delivered; and `Read` of the
largest `int64`, a size that is not negative, panics in `make` and returns nothing. -/
theorem read_returns_whole_buffer :
    (((handleOf [1, 2]).Read amd64 bytesReader 4).map
        (fun p => (p.1.GetBuffer, p.1.Size, p.1.Error))) = .ok ([1, 2, 0, 0], 2, []) ∧
    ([1, 2, 0, 0] : Bytes) ≠ [1, 2] ∧
    (handleOf [1, 2]).Read amd64 bytesReader 9223372036854775807 =
      .error .makesliceLenOutOfRange :=
  ⟨by decide, by decide,
    read_size_above_limit_panics amd64 bytesReader (handleOf [1, 2]) 9223372036854775807
      (by decide)⟩

/-- C7, amended: for every size that is not negative and that the runtime can
allocate, and every outcome of the one read of the stream into the zeroed buffer of
that size (the buffer as the stream left it, still of that size; the count `n`, from
0 to the size; an optional error), `Read(size)` returns a result whose `Size` is `n`;
the returned buffer is the whole buffer, of `size` bytes, and its first `Size` bytes
are the `n` bytes the stream delivered, in order; `Error` is the message of the
stream's error when it reported one and empty when it reported none, so that, the
messages of errors not being empty, `Error` is set exactly when the stream reported
an error, with `Size` and the bytes as said; the handle keeps the stream's new state
and is otherwise as before. -/
theorem read_reports_count_and_error {σ : Type} (rt : Runtime) (rc : io.ReadCloser σ)
    (r : HTTPResponse σ) (size : Int) (buf' : Bytes) (n : Int) (err : Option GoError)
    (body' : σ)
    (hsize : 0 ≤ size) (halloc : size ≤ rt.maxAlloc) (hmem : rt.hasMemory size.toNat = true)
    (hread : rc.Read r.body (List.replicate size.toNat 0) = ((buf', n, err), body'))
    (hlen : buf'.length = size.toNat)
    (hn : 0 ≤ n ∧ n ≤ size) :
    ∃ res, r.Read rt rc size = .ok (res, { r with body := body' }) ∧
      res.Size = n ∧ 0 ≤ res.Size ∧ res.Size ≤ size ∧
      res.GetBuffer = buf' ∧
      res.GetBuffer.length = size.toNat ∧
      res.GetBuffer.take res.Size.toNat = buf'.take n.toNat ∧
      (res.GetBuffer.take res.Size.toNat).length = n.toNat ∧
      res.Error = (err.map GoError.Error).getD [] ∧
      (err = none → res.Error = []) ∧
      ((∀ e, err = some e → e.Error ≠ []) → (res.Error ≠ [] ↔ err ≠ none)) := by
  have hR := read_eq rt rc r size _ buf' n err body' (makeBytes_ok rt size hsize halloc hmem)
    hread
  refine ⟨_, hR, rfl, hn.1, hn.2, rfl, hlen, rfl, ?_, rfl, ?_, ?_⟩
  · show (buf'.take n.toNat).length = n.toNat
    rw [List.length_take, hlen]
    omega
  · intro h
    subst h
    rfl
  · intro hmsg
    cases err with
    | none => simp
    | some e => simpa using hmsg e rfl

/-- `Read(4)` on a reader with the two bytes 1, 2 left, and on a reader at its end. -/
theorem read_reports_count_and_error_witness :
    (∃ res, (handleOf [1, 2]).Read amd64 bytesReader 4 =
        .ok (res, { handleOf [1, 2] with body := [] }) ∧
      res.Size = 2 ∧ res.GetBuffer.take res.Size.toNat = [1, 2] ∧ res.Error = []) ∧
    (∃ res, (handleOf []).Read amd64 bytesReader 4 = .ok (res, handleOf []) ∧
      res.Size = 0 ∧ res.Error ≠ []) := by
  constructor
  · obtain ⟨res, h1, h2, -, -, h3, -, -, -, -, h4, -⟩ :=
      read_reports_count_and_error amd64 bytesReader (handleOf [1, 2]) 4 [1, 2, 0, 0] 2 none []
        (by decide) (by decide) rfl (by decide) rfl (by decide)
    refine ⟨res, h1, h2, ?_, h4 rfl⟩
    rw [h2, h3]
    rfl
  · obtain ⟨res, h1, h2, -, -, -, -, -, -, -, -, h4⟩ :=
      read_reports_count_and_error amd64 bytesReader (handleOf []) 4 [0, 0, 0, 0] 0
        (some io.EOF) [] (by decide) (by decide) rfl (by decide) rfl (by decide)
    refine ⟨res, h1, h2, (h4 ?_).mpr (by simp)⟩
    intro e he
    cases he
    decide

/-! ## Response headers -/

/-- What the loop of `NewHTTPResponse` computes over entries with distinct keys and
values that are not empty: the map it started from, overwritten at each key of the
entries by the first value listed for it. -/
theorem newHTTPResponse_loop_lookup (l : List (Σ _ : GoString, List GoString))
    (header : GoMap GoString) (hnd : l.NodupKeys) (hne : ∀ e ∈ l, e.2 ≠ []) :
    ∃ header', NewHTTPResponse.loop l header = .ok header' ∧
      ∀ k, header'.lookup k =
        match l.dlookup k with
        | some v => v.head?
        | none => header.lookup k := by
  induction l generalizing header with
  | nil => exact ⟨header, rfl, fun k => by simp⟩
  | cons e rest ih =>
    obtain ⟨k1, v⟩ := e
    cases v with
    | nil => exact absurd rfl (hne ⟨k1, []⟩ (by simp))
    | cons v0 vs =>
      rw [List.nodupKeys_cons] at hnd
      obtain ⟨header', hloop, hlook⟩ := ih (header.insert k1 v0) hnd.2
        (fun e he => hne e (List.mem_cons_of_mem _ he))
      refine ⟨header', by simpa [NewHTTPResponse.loop] using hloop, ?_⟩
      intro k
      rw [hlook k]
      by_cases hk : k = k1
      · subst hk
        have hnone : List.dlookup k rest = none := List.dlookup_eq_none.mpr hnd.1
        simp [hnone, AList.lookup_insert]
      · have hk' : k1 ≠ k := fun h => hk h.symm
        rw [List.dlookup_cons_ne _ _ hk]
        cases List.dlookup k rest with
        | some v => rfl
        | none => simp [AList.lookup_insert_ne hk]

/-- C4: for every raw response whose header values are not empty (as the HTTP stack
makes them) and every order of iteration over its header, `NewHTTPResponse` returns a
handle, and for every name `k`: if the raw response lists `v0` first for `k`,
`GetHeader(k)` returns `v0`; if the raw response does not have `k`, `GetHeader(k)`
returns the empty string; in both cases the handle after the call is the handle
before it. -/
theorem getHeader_returns_first_value {σ : Type} (resp : http.Response σ)
    (order : List (Σ _ : GoString, List GoString))
    (hperm : order.Perm resp.Header.entries)
    (hne : ∀ k, resp.Header.lookup k ≠ some []) :
    ∃ r, NewHTTPResponse resp order = .ok r ∧
      r.StatusCode = resp.StatusCode ∧ r.Proto = resp.Proto ∧
      r.ContentLength = resp.ContentLength ∧ r.body = resp.Body ∧
      ∀ k,
        (∀ v0 vs, resp.Header.lookup k = some (v0 :: vs) → r.GetHeader k = (v0, r)) ∧
        (resp.Header.lookup k = none → r.GetHeader k = ([], r)) := by
  have hnd : order.NodupKeys := (List.perm_nodupKeys hperm).mpr resp.Header.nodupKeys
  have hlk : ∀ k, order.dlookup k = resp.Header.lookup k := fun k =>
    List.perm_dlookup k hnd resp.Header.nodupKeys hperm
  have hne' : ∀ e ∈ order, e.2 ≠ [] := by
    intro e he h
    obtain ⟨k, v⟩ := e
    simp only at h
    subst h
    have : List.dlookup k order = some [] := (List.mem_dlookup_iff hnd).mpr he
    exact hne k ((hlk k).symm ▸ this)
  obtain ⟨header', hloop, hlook⟩ := newHTTPResponse_loop_lookup order ∅ hnd hne'
  have hnew : NewHTTPResponse resp order = .ok
      { StatusCode := resp.StatusCode, Proto := resp.Proto,
        ContentLength := resp.ContentLength, Header := header', body := resp.Body } := by
    simp only [NewHTTPResponse, hloop]
  refine ⟨_, hnew, rfl, rfl, rfl, rfl, ?_⟩
  intro k
  constructor
  · intro v0 vs hk
    have : header'.lookup k = some v0 := by
      rw [hlook k, hlk k, hk]; rfl
    simp only [HTTPResponse.GetHeader, this]
  · intro hk
    have : header'.lookup k = none := by
      rw [hlook k, hlk k, hk]; rfl
    simp only [HTTPResponse.GetHeader, this]


/-- Every header of the example raw response lists a value. -/
theorem rawExample_values_ne_nil (k : GoString) : rawExample.Header.lookup k ≠ some [] := by
  intro hk
  have hmem := AList.mem_lookup_iff.mp hk
  have hent : rawExample.Header.entries =
      [⟨"Content-Type".toList, ["text/plain".toList, "text/html".toList]⟩,
        ⟨"Content-Length".toList, ["5".toList]⟩] := by decide
  rw [hent] at hmem
  simp at hmem

/-- A raw response with `Content-Type: text/plain` listed first, ranged over in the
reverse of the stored order. -/
theorem getHeader_returns_first_value_witness :
    ∃ r, NewHTTPResponse rawExample rawExample.Header.entries.reverse = .ok r ∧
      r.GetHeader "Content-Type".toList = ("text/plain".toList, r) ∧
      r.GetHeader "X-Absent".toList = ([], r) := by
  obtain ⟨r, h, -, -, -, -, hk⟩ :=
    getHeader_returns_first_value rawExample rawExample.Header.entries.reverse
      (List.reverse_perm _) rawExample_values_ne_nil
  exact ⟨r, h, (hk "Content-Type".toList).1 "text/plain".toList ["text/html".toList] (by decide),
    (hk "X-Absent".toList).2 (by decide)⟩

/-! ## `Range` -/

/-- `Range` shown to a recording visitor: the visitor ends in the state the plain
visitor ends in, and its record has grown by the calls of `visitorTrace`. -/
theorem range_loop_recording {τ : Type} (it : HeaderIterator τ)
    (l : List (Σ _ : GoString, GoString)) (st : τ) (log : List (VisitorCall τ)) :
    HTTPResponse.Range.loop (recording it) l (st, log) =
      (HTTPResponse.Range.loop it l st, log ++ visitorTrace it l st) := by
  induction l generalizing st log with
  | nil => simp [HTTPResponse.Range.loop, visitorTrace]
  | cons e rest ih =>
    obtain ⟨k, val⟩ := e
    cases h : it.Iterate st k val with
    | mk b st' =>
      cases b with
      | false => simp [HTTPResponse.Range.loop, visitorTrace, recording, h]
      | true =>
        have hstep : (recording it).Iterate (st, log) k val =
            (true, (st', log ++ [{ before := st, key := k, value := val, answer := true,
                                    after := st' }])) := by
          simp [recording, h]
        have htrace : visitorTrace it (⟨k, val⟩ :: rest) st =
            { before := st, key := k, value := val, answer := true, after := st' } ::
              visitorTrace it rest st' := by
          simp [visitorTrace, h]
        rw [htrace]
        simp only [HTTPResponse.Range.loop, hstep, h, ih]
        simp

/-- The entries visited are an initial segment of the order of iteration. -/
theorem visitorTrace_initial {τ : Type} (it : HeaderIterator τ)
    (l : List (Σ _ : GoString, GoString)) (st : τ) :
    ∃ t, l = calledEntries (visitorTrace it l st) ++ t := by
  induction l generalizing st with
  | nil => exact ⟨[], rfl⟩
  | cons e rest ih =>
    obtain ⟨k, val⟩ := e
    cases hb : (it.Iterate st k val).1 with
    | false => exact ⟨rest, by simp [visitorTrace, calledEntries, hb]⟩
    | true =>
      obtain ⟨t, ht⟩ := ih (it.Iterate st k val).2
      refine ⟨t, ?_⟩
      simp only [visitorTrace, hb, if_true, calledEntries, List.map_cons, List.cons_append]
      exact congrArg _ ht

/-- When no call answered false, the whole order was visited. -/
theorem visitorTrace_all_true {τ : Type} (it : HeaderIterator τ)
    (l : List (Σ _ : GoString, GoString)) (st : τ)
    (hall : ∀ c ∈ visitorTrace it l st, c.answer = true) :
    calledEntries (visitorTrace it l st) = l := by
  induction l generalizing st with
  | nil => rfl
  | cons e rest ih =>
    obtain ⟨k, val⟩ := e
    have hb : (it.Iterate st k val).1 = true :=
      hall { before := st, key := k, value := val, answer := (it.Iterate st k val).1,
             after := (it.Iterate st k val).2 } (by simp [visitorTrace])
    have hrest : ∀ c ∈ visitorTrace it rest (it.Iterate st k val).2, c.answer = true := by
      intro c hc
      exact hall c (by simp [visitorTrace, hb, hc])
    simp only [visitorTrace, hb, if_true, calledEntries, List.map_cons]
    exact congrArg _ (ih _ hrest)

/-- A call that answered false is the last call. -/
theorem visitorTrace_false_last {τ : Type} (it : HeaderIterator τ)
    (l : List (Σ _ : GoString, GoString)) (st : τ) (i : Nat)
    (hi : i < (visitorTrace it l st).length)
    (hf : ((visitorTrace it l st).get ⟨i, hi⟩).answer = false) :
    i + 1 = (visitorTrace it l st).length := by
  induction l generalizing st i with
  | nil => simp [visitorTrace] at hi
  | cons e rest ih =>
    obtain ⟨k, val⟩ := e
    cases hb : (it.Iterate st k val).1 with
    | false =>
      have hlog : visitorTrace it (⟨k, val⟩ :: rest) st =
          [{ before := st, key := k, value := val, answer := false,
             after := (it.Iterate st k val).2 }] := by
        simp [visitorTrace, hb]
      have : i < 1 := by simpa [hlog] using hi
      rw [hlog]
      simp
      omega
    | true =>
      have hlog : visitorTrace it (⟨k, val⟩ :: rest) st =
          { before := st, key := k, value := val, answer := true,
            after := (it.Iterate st k val).2 } ::
            visitorTrace it rest (it.Iterate st k val).2 := by
        simp [visitorTrace, hb]
      cases i with
      | zero =>
        have : ((visitorTrace it (⟨k, val⟩ :: rest) st).get ⟨0, hi⟩).answer = true := by
          simp [hlog]
        rw [this] at hf
        cases hf
      | succ j =>
        have hj : j < (visitorTrace it rest (it.Iterate st k val).2).length := by
          have := hi
          simp [hlog] at this
          exact this
        have hfj : ((visitorTrace it rest (it.Iterate st k val).2).get ⟨j, hj⟩).answer =
            false := by
          rw [← hf]
          simp [hlog]
        have := ih _ j hj hfj
        simp [hlog]
        omega

/-- Each call in the trace is a call of `Iterate`: answer and state after are what
`Iterate` returns on the state before and the entry. -/
theorem visitorTrace_calls {τ : Type} (it : HeaderIterator τ)
    (l : List (Σ _ : GoString, GoString)) (st : τ) :
    ∀ c ∈ visitorTrace it l st, it.Iterate c.before c.key c.value = (c.answer, c.after) := by
  induction l generalizing st with
  | nil => simp [visitorTrace]
  | cons e rest ih =>
    obtain ⟨k, val⟩ := e
    intro c hc
    simp only [visitorTrace, List.mem_cons] at hc
    rcases hc with hc | hc
    · subst hc
      rfl
    · split at hc
      · exact ih _ c hc
      · simp at hc

/-- The first call starts from the state `Range` was given. -/
theorem visitorTrace_head {τ : Type} (it : HeaderIterator τ)
    (l : List (Σ _ : GoString, GoString)) (st : τ) :
    ∀ c ∈ (visitorTrace it l st).head?, c.before = st := by
  cases l with
  | nil => simp [visitorTrace]
  | cons e rest =>
    obtain ⟨k, val⟩ := e
    intro c hc
    simp only [visitorTrace, List.head?_cons, Option.mem_def, Option.some.injEq] at hc
    subst hc
    rfl

/-- Each later call starts from the state the call before it left. -/
theorem visitorTrace_chain {τ : Type} (it : HeaderIterator τ)
    (l : List (Σ _ : GoString, GoString)) (st : τ) :
    (visitorTrace it l st).Chain' (fun a b => b.before = a.after) := by
  induction l generalizing st with
  | nil => simp [visitorTrace]
  | cons e rest ih =>
    obtain ⟨k, val⟩ := e
    simp only [visitorTrace]
    rw [List.chain'_cons']
    constructor
    · intro c hc
      split at hc
      · exact visitorTrace_head it rest _ c hc
      · simp at hc
    · split
      · exact ih _
      · exact List.chain'_nil

/-- The state `Range` leaves is the state after the last call, or the state it was
given when there was no call. -/
theorem range_loop_final {τ : Type} (it : HeaderIterator τ)
    (l : List (Σ _ : GoString, GoString)) (st : τ) :
    HTTPResponse.Range.loop it l st =
      (((visitorTrace it l st).getLast?).map VisitorCall.after).getD st := by
  induction l generalizing st with
  | nil => rfl
  | cons e rest ih =>
    obtain ⟨k, val⟩ := e
    cases h : it.Iterate st k val with
    | mk b st' =>
      cases b with
      | false => simp [HTTPResponse.Range.loop, visitorTrace, h]
      | true =>
        simp only [HTTPResponse.Range.loop, visitorTrace, h, if_true, ih st']
        cases hr : visitorTrace it rest st' with
        | nil => simp
        | cons c cs =>
          obtain ⟨x, hx⟩ : ∃ x, (c :: cs).getLast? = some x :=
            ⟨_, List.getLast?_eq_getLast _ (List.cons_ne_nil _ _)⟩
          simp [List.getLast?_cons_cons, hx]

/-- C5: for every handle, every order in which the range statement may yield the
entries of its header map, and every visitor, take the record of the calls of
`Iterate` that the visitor itself keeps while `Range` runs.  Keeping the record does
not change the state the visitor ends in.  Each recorded call is a call of the
visitor's `Iterate`, the first on the state `Range` was given and each later one on
the state the call before it left, and the visitor ends in the state the last call
left.  If no call answered false, the visitor was called exactly once for each entry
of the map and for nothing else; a call that answered false is the last call made;
and in every case each entry visited is an entry of the map and was visited exactly
once. -/
theorem range_visits_each_entry_once {σ τ : Type} (r : HTTPResponse σ)
    (it : HeaderIterator τ) (order : List (Σ _ : GoString, GoString)) (st : τ)
    (hperm : order.Perm r.Header.entries) :
    (r.Range (recording it) order (st, [])).1 = r.Range it order st ∧
    (∀ c ∈ (r.Range (recording it) order (st, [])).2,
      it.Iterate c.before c.key c.value = (c.answer, c.after)) ∧
    (∀ c ∈ (r.Range (recording it) order (st, [])).2.head?, c.before = st) ∧
    (r.Range (recording it) order (st, [])).2.Chain' (fun a b => b.before = a.after) ∧
    r.Range it order st =
      (((r.Range (recording it) order (st, [])).2.getLast?).map VisitorCall.after).getD st ∧
    ((∀ c ∈ (r.Range (recording it) order (st, [])).2, c.answer = true) →
      ∀ e, (calledEntries (r.Range (recording it) order (st, [])).2).count e =
        if e ∈ r.Header.entries then 1 else 0) ∧
    (∀ (i : Nat) (hi : i < (r.Range (recording it) order (st, [])).2.length),
      ((r.Range (recording it) order (st, [])).2.get ⟨i, hi⟩).answer = false →
        i + 1 = (r.Range (recording it) order (st, [])).2.length) ∧
    (∀ e ∈ calledEntries (r.Range (recording it) order (st, [])).2,
      e ∈ r.Header.entries ∧
        (calledEntries (r.Range (recording it) order (st, [])).2).count e = 1) := by
  have hrec : r.Range (recording it) order (st, []) =
      (r.Range it order st, visitorTrace it order st) := by
    simp only [HTTPResponse.Range, range_loop_recording, List.nil_append]
  rw [hrec]
  have hnd : order.Nodup := (hperm.nodup_iff).mpr r.Header.nodupKeys.nodup
  obtain ⟨t, ht⟩ := visitorTrace_initial it order st
  have hsub : (calledEntries (visitorTrace it order st)).Sublist order := by
    conv => rhs; rw [ht]
    exact List.sublist_append_left _ _
  refine ⟨rfl, visitorTrace_calls it order st, visitorTrace_head it order st,
    visitorTrace_chain it order st, range_loop_final it order st, ?_, ?_, ?_⟩
  · intro hall e
    have hlog := visitorTrace_all_true it order st hall
    simp only [hlog]
    rw [hperm.count_eq]
    by_cases he : e ∈ r.Header.entries
    · simp [he, List.count_eq_one_of_mem r.Header.nodupKeys.nodup he]
    · simp [he, List.count_eq_zero_of_not_mem he]
  · intro i hi hf
    exact visitorTrace_false_last it order st i hi hf
  · intro e he
    exact ⟨hperm.mem_iff.mp (hsub.subset he), List.count_eq_one_of_mem (hnd.sublist hsub) he⟩

/-- A handle with three headers, ranged over in the reverse of the stored order: a
visitor that never asks to stop is called once for the entry `B: 2` and ends having
counted three calls, and for a visitor that asks to stop at its second call the
second call is the last. -/
theorem range_visits_each_entry_once_witness :
    (calledEntries (headersExample.Range (recording (countingVisitor 0))
      headersExample.Header.entries.reverse (0, [])).2).count ⟨"B".toList, "2".toList⟩ = 1 ∧
    headersExample.Range (countingVisitor 0) headersExample.Header.entries.reverse 0 = 3 ∧
    1 + 1 = (headersExample.Range (recording (countingVisitor 2))
      headersExample.Header.entries.reverse (0, [])).2.length ∧
    headersExample.Range (countingVisitor 2) headersExample.Header.entries.reverse 0 = 2 :=
  ⟨((range_visits_each_entry_once headersExample (countingVisitor 0)
      headersExample.Header.entries.reverse 0 (List.reverse_perm _)).2.2.2.2.2.1 (by decide)
      ⟨"B".toList, "2".toList⟩).trans (by decide),
    ((range_visits_each_entry_once headersExample (countingVisitor 0)
      headersExample.Header.entries.reverse 0 (List.reverse_perm _)).1).symm.trans (by decide),
    (range_visits_each_entry_once headersExample (countingVisitor 2)
      headersExample.Header.entries.reverse 0 (List.reverse_perm _)).2.2.2.2.2.2.1 1 (by decide)
      (by decide),
    ((range_visits_each_entry_once headersExample (countingVisitor 2)
      headersExample.Header.entries.reverse 0 (List.reverse_perm _)).1).symm.trans (by decide)⟩

/-! ## Reading a body to its end -/

theorem eof_message_ne_nil : io.EOF.Error ≠ [] := by decide

/-- `bytes.Reader` keeps the contract of a body stream for every buffer that is not
empty; what is still to be delivered is its state. -/
theorem bytesReader_delivers (len : Nat) (hlen : 0 < len) :
    DeliversBody bytesReader len (fun s pending => s = pending) := by
  intro s pending buf hR hbuf
  subst hR
  by_cases hs : s = []
  · subst hs
    exact ⟨buf, 0, some io.EOF, [], rfl, hbuf, by omega, by simp, by simp, rfl,
      fun _ => rfl, fun h => absurd rfl h⟩
  · have hpos : 0 < s.length := List.length_pos.mpr hs
    refine ⟨s.take (min buf.length s.length) ++ buf.drop (min buf.length s.length),
      min buf.length s.length, none, s.drop (min buf.length s.length), ?_, ?_, ?_, ?_, ?_, rfl,
      fun h => absurd h hs, fun _ => ⟨?_, Or.inl rfl⟩⟩
    · simp [bytesReader, hs]
    · simp only [List.length_append, List.length_take, List.length_drop]
      omega
    · omega
    · omega
    · rw [List.take_append_of_le_length (by simp)]
      simp
    · omega

/-- A read at the end of a stream that keeps the contract: no byte, `io.EOF`, and
the stream still at its end. -/
theorem read_at_end {σ : Type} (rt : Runtime) (rc : io.ReadCloser σ) (R : σ → Bytes → Prop)
    (r : HTTPResponse σ) (M : Int) (hM : 0 ≤ M) (halloc : M ≤ rt.maxAlloc)
    (hmem : rt.hasMemory M.toNat = true) (hstream : DeliversBody rc M.toNat R)
    (hend : R r.body []) :
    ∃ buf' body', r.Read rt rc M =
        .ok ({ Buf := buf', Error := io.EOF.Error, Size := 0 }, { r with body := body' }) ∧
      buf'.length = M.toNat ∧ R body' [] := by
  obtain ⟨buf', n, err, s', hread, hlen, -, hn, -, hR, herr, -⟩ :=
    hstream r.body [] (List.replicate M.toNat 0) hend (by simp)
  have hn0 : n = 0 := by simpa using hn
  subst hn0
  rw [herr rfl] at hread
  refine ⟨buf', s', ?_, hlen, by simpa using hR⟩
  rw [read_eq rt rc r M _ buf' _ _ s' (makeBytes_ok rt M hM halloc hmem) hread]
  rfl

/-- After the end of the stream every `Read` returns `Size` 0 and the error `EOF`. -/
theorem readTimes_after_end {σ : Type} (rt : Runtime) (rc : io.ReadCloser σ)
    (R : σ → Bytes → Prop) (M : Int) (hM : 0 ≤ M) (halloc : M ≤ rt.maxAlloc)
    (hmem : rt.hasMemory M.toNat = true) (hstream : DeliversBody rc M.toNat R) (n : Nat)
    (r : HTTPResponse σ) (hend : R r.body []) :
    ∃ rs, readTimes rt rc n r M = .ok rs ∧ rs.length = n ∧
      ∀ x ∈ rs, x.Size = 0 ∧ x.Error = io.EOF.Error := by
  induction n generalizing r with
  | zero => exact ⟨[], rfl, rfl, by simp⟩
  | succ n ih =>
    obtain ⟨buf', body', hread, -, hR⟩ := read_at_end rt rc R r M hM halloc hmem hstream hend
    obtain ⟨rs, hrs, hlen, hall⟩ := ih { r with body := body' } hR
    refine ⟨{ Buf := buf', Error := io.EOF.Error, Size := 0 } :: rs, ?_, by simp [hlen], ?_⟩
    · simp only [readTimes, hread, hrs]
      rfl
    · intro x hx
      rcases List.mem_cons.mp hx with hx | hx
      · subst hx
        exact ⟨rfl, rfl⟩
      · exact hall x hx

/-- With enough fuel the loop of reads ends at the end of the stream, and its results
add up to what was pending. -/
theorem readUntilError_exhausts {σ : Type} (rt : Runtime) (rc : io.ReadCloser σ)
    (R : σ → Bytes → Prop) (M : Int) (hM : 0 < M) (halloc : M ≤ rt.maxAlloc)
    (hmem : rt.hasMemory M.toNat = true) (hstream : DeliversBody rc M.toNat R)
    (fuel : Nat) (r : HTTPResponse σ) (pending : Bytes) (hR : R r.body pending)
    (hfuel : pending.length + 1 ≤ fuel) :
    ∃ rs r', readUntilError rt rc fuel r M = some (rs, r') ∧
      (rs.map (fun x => x.Size)).sum = pending.length ∧
      (rs.map (fun x => x.Buf.take x.Size.toNat)).flatten = pending ∧
      (∀ x ∈ rs, 0 ≤ x.Size ∧ x.Size ≤ M ∧ x.Buf.length = M.toNat) ∧
      (∃ init last, rs = init ++ [last] ∧ last.Error = io.EOF.Error ∧
        ∀ x ∈ init, x.Error = []) ∧
      R r'.body [] := by
  induction fuel generalizing r pending with
  | zero => omega
  | succ fuel ih =>
    have hM0 : 0 ≤ M := by omega
    obtain ⟨buf', n, err, s', hread, hlen, hnM, hnp, htake, hR', hend, hdata⟩ :=
      hstream r.body pending (List.replicate M.toNat 0) hR (by simp)
    have hRead := read_eq rt rc r M _ buf' _ _ s' (makeBytes_ok rt M hM0 halloc hmem) hread
    have hn0 : (0 : Int) ≤ (n : Int) := by omega
    have hnM' : (n : Int) ≤ M := by omega
    have hterminal : ∀ (hall : n = pending.length) (herr : err = some io.EOF),
        ∃ rs r', readUntilError rt rc (fuel + 1) r M = some (rs, r') ∧
          (rs.map (fun x => x.Size)).sum = pending.length ∧
          (rs.map (fun x => x.Buf.take x.Size.toNat)).flatten = pending ∧
          (∀ x ∈ rs, 0 ≤ x.Size ∧ x.Size ≤ M ∧ x.Buf.length = M.toNat) ∧
          (∃ init last, rs = init ++ [last] ∧ last.Error = io.EOF.Error ∧
            ∀ x ∈ init, x.Error = []) ∧
          R r'.body [] := by
      intro hall herr
      rw [herr] at hRead
      refine ⟨[{ Buf := buf', Error := io.EOF.Error, Size := (n : Int) }],
        { r with body := s' }, ?_, ?_, ?_, ?_, ⟨[], _, rfl, rfl, by simp⟩, ?_⟩
      · simp only [readUntilError, hRead]
        simp [eof_message_ne_nil]
      · simp [hall]
      · simp only [List.map_cons, List.map_nil, List.flatten_cons, List.flatten_nil,
          List.append_nil, Int.toNat_ofNat, htake]
        rw [hall]; simp
      · intro x hx
        rw [List.mem_singleton] at hx
        subst hx
        exact ⟨hn0, hnM', hlen⟩
      · show R s' []
        have : pending.drop n = [] := by rw [hall]; simp
        rw [← this]
        exact hR'
    by_cases hp : pending = []
    · have hn : n = pending.length := by
        subst hp
        simpa using hnp
      exact hterminal hn (hend hp)
    · obtain ⟨hn1, herr⟩ := hdata hp
      rcases herr with herr | ⟨herr, hall⟩
      · rw [herr] at hRead
        obtain ⟨rs, r', hrun, hsum, hcat, hall, ⟨init, last, hrs, hlast, hinit⟩, hRend⟩ :=
          ih { r with body := s' } (pending.drop n) hR'
            (by rw [List.length_drop]; omega)
        refine ⟨{ Buf := buf', Error := [], Size := (n : Int) } :: rs, r', ?_, ?_, ?_, ?_,
          ⟨{ Buf := buf', Error := [], Size := (n : Int) } :: init, last,
            by rw [hrs]; rfl, hlast, ?_⟩, hRend⟩
        · simp only [readUntilError, hRead]
          simp [hrun]
        · simp only [List.map_cons, List.sum_cons, hsum]
          rw [List.length_drop]
          omega
        · simp only [List.map_cons, List.flatten_cons, hcat, Int.toNat_ofNat, htake]
          exact List.take_append_drop n pending
        · intro x hx
          rcases List.mem_cons.mp hx with hx | hx
          · subst hx
            exact ⟨hn0, hnM', hlen⟩
          · exact hall x hx
        · intro x hx
          rcases List.mem_cons.mp hx with hx | hx
          · subst hx; rfl
          · exact hinit x hx
      · exact hterminal hall herr

/-- `Read(0)` on a `bytes.Reader` with bytes left never sets `Error`, so the loop of
reads does not end. -/
theorem readUntilError_zero_size (fuel : Nat) (r : HTTPResponse Bytes) (hp : r.body ≠ []) :
    readUntilError amd64 bytesReader fuel r 0 = none := by
  induction fuel with
  | zero => rfl
  | succ fuel ih =>
    have hmake : makeBytes amd64 0 = .ok [] := by decide
    have hstep : bytesReader.Read r.body [] = (([], 0, none), r.body) := by
      simp [bytesReader, hp]
    have hread := read_eq amd64 bytesReader r 0 [] [] 0 none r.body hmake hstep
    simp only [readUntilError, hread]
    simpa using ih

/-- A size above the runtime's limit ends the loop of reads in a panic. -/
theorem readUntilError_size_above_limit {σ : Type} (rt : Runtime) (rc : io.ReadCloser σ)
    (fuel : Nat) (r : HTTPResponse σ) (size : Int) (h : (rt.maxAlloc : Int) < size) :
    readUntilError rt rc fuel r size = none := by
  cases fuel with
  | zero => rfl
  | succ fuel => simp only [readUntilError, read_size_above_limit_panics rt rc r size h]

/-- C6 as stated fails.  With buffer size 0 on a body of one byte no number of reads
reaches a result with `Error` set; with buffer size 2 on the body 1, 2, 3 the reads
return the buffers 1, 2 and 3, 0 and 0, 0, which concatenated are not the body; and
with a buffer size above the runtime's limit, on a body one byte longer than that
size, the first read panics. -/
theorem read_loop_needs_positive_size_and_count :
    (¬ ∃ fuel, (readUntilError amd64 bytesReader fuel (handleOf [7]) 0).isSome = true) ∧
    ((readUntilError amd64 bytesReader 4 (handleOf [1, 2, 3]) 2).map
        (fun p => (p.1.map ReadResult.GetBuffer).flatten)) = some [1, 2, 3, 0, 0, 0] ∧
    ([1, 2, 3, 0, 0, 0] : Bytes) ≠ [1, 2, 3] ∧
    ((2 ^ 48 + 1 : Int) < ((List.replicate (2 ^ 48 + 2) (0 : UInt8)).length : Int)) ∧
    (¬ ∃ fuel, (readUntilError amd64 bytesReader fuel
        (handleOf (List.replicate (2 ^ 48 + 2) 0)) (2 ^ 48 + 1)).isSome = true) := by
  refine ⟨?_, by decide, by decide, ?_, ?_⟩
  · rintro ⟨fuel, h⟩
    rw [readUntilError_zero_size fuel _ (by decide)] at h
    cases h
  · rw [List.length_replicate]
    norm_num
  · rintro ⟨fuel, h⟩
    have hlim : (amd64.maxAlloc : Int) < 2 ^ 48 + 1 := by
      show ((2 ^ 48 : Nat) : Int) < 2 ^ 48 + 1
      norm_num
    rw [readUntilError_size_above_limit amd64 bytesReader fuel _ _ hlim] at h
    cases h

/-- C6, amended: for every body of N bytes held by a stream that keeps the contract
`DeliversBody` (it delivers the body in order, at least one byte at each read into a
buffer that is not empty, meets no I/O failure, reports `EOF` together with the
final bytes or at the read after them, and after the end delivers nothing and
reports `EOF`), and every buffer size M with 0 < M < N that the runtime can
allocate, calling `Read(M)` until a result has `Error` set ends within N + 1 calls;
the `Size` values add up to N; the first `Size` bytes of the returned buffers,
concatenated in order, are the body; each `Size` is between 0 and M and each buffer
has M bytes; the last result, and no earlier one, has `Error` set (to `EOF`); and
every `Read(M)` after that returns `Size` 0 and the error `EOF`. -/
theorem read_until_end_yields_body {σ : Type} (rt : Runtime) (rc : io.ReadCloser σ)
    (R : σ → Bytes → Prop) (body : Bytes) (r : HTTPResponse σ) (M : Int) (fuel : Nat)
    (hM : 0 < M) (hMN : M < body.length)
    (halloc : M ≤ rt.maxAlloc) (hmem : rt.hasMemory M.toNat = true)
    (hstream : DeliversBody rc M.toNat R) (hbody : R r.body body)
    (hfuel : body.length + 1 ≤ fuel) :
    ∃ rs r', readUntilError rt rc fuel r M = some (rs, r') ∧
      (rs.map (fun x => x.Size)).sum = body.length ∧
      (rs.map (fun x => x.GetBuffer.take x.Size.toNat)).flatten = body ∧
      (∀ x ∈ rs, 0 ≤ x.Size ∧ x.Size ≤ M ∧ x.GetBuffer.length = M.toNat) ∧
      (∃ init last, rs = init ++ [last] ∧ last.Error = "EOF".toList ∧ last.Error ≠ [] ∧
        ∀ x ∈ init, x.Error = []) ∧
      ∀ n, ∃ later, readTimes rt rc n r' M = .ok later ∧ later.length = n ∧
        ∀ x ∈ later, x.Size = 0 ∧ x.Error = "EOF".toList ∧ x.Error ≠ [] := by
  have _hMN := hMN
  obtain ⟨rs, r', hrun, hsum, hcat, hall, ⟨init, last, hrs, hlast, hinit⟩, hend⟩ :=
    readUntilError_exhausts rt rc R M hM halloc hmem hstream fuel r body hbody hfuel
  refine ⟨rs, r', hrun, hsum, hcat, hall,
    ⟨init, last, hrs, hlast, hlast ▸ eof_message_ne_nil, hinit⟩, ?_⟩
  intro n
  obtain ⟨later, hlater, hlen, hzero⟩ :=
    readTimes_after_end rt rc R M (by omega) halloc hmem hstream n r' hend
  exact ⟨later, hlater, hlen, fun x hx =>
    ⟨(hzero x hx).1, (hzero x hx).2, (hzero x hx).2 ▸ eof_message_ne_nil⟩⟩

/-- The body 1, 2, 3 of a `bytes.Reader` read with buffer size 2 on a 64-bit
runtime. -/
theorem read_until_end_yields_body_witness :
    ∃ rs r', readUntilError amd64 bytesReader 4 (handleOf [1, 2, 3]) 2 = some (rs, r') ∧
      (rs.map (fun x => x.Size)).sum = 3 ∧
      (rs.map (fun x => x.GetBuffer.take x.Size.toNat)).flatten = [1, 2, 3] := by
  obtain ⟨rs, r', h1, h2, h3, -⟩ :=
    read_until_end_yields_body amd64 bytesReader (fun s pending => s = pending) [1, 2, 3]
      (handleOf [1, 2, 3]) 2 4 (by decide) (by decide) (by decide) rfl
      (bytesReader_delivers 2 (by decide)) rfl (by decide)
  exact ⟨rs, r', h1, h2, h3⟩

/-! ## `PerformRequest` -/

theorem urlError_message_ne_nil (quote : GoString → GoString) (e : url.Error) :
    e.Error quote ≠ [] := by
  have : (" ".toList : GoString) = [' '] := rfl
  simp [url.Error.Error, this]

theorem newRequestError_message_ne_nil (quote : GoString → GoString)
    (e : http.NewRequestError) : e.Error quote ≠ [] := by
  cases e with
  | invalidMethod method =>
    have : ("net/http: invalid method ".toList : GoString) ≠ [] := by decide
    simp [http.NewRequestError.Error, this]
  | parse err => exact urlError_message_ne_nil quote err

/-- `NewHTTPResponse` returns a handle for a raw response whose header values are not
empty. -/
theorem newHTTPResponse_returns {σ : Type} (resp : http.Response σ)
    (order : List (Σ _ : GoString, List GoString))
    (hperm : order.Perm resp.Header.entries)
    (hne : ∀ k, resp.Header.lookup k ≠ some []) :
    ∃ r, NewHTTPResponse resp order = .ok r := by
  have hnd : order.NodupKeys := (List.perm_nodupKeys hperm).mpr resp.Header.nodupKeys
  have hne' : ∀ e ∈ order, e.2 ≠ [] := by
    intro e he h
    obtain ⟨k, v⟩ := e
    simp only at h
    subst h
    have : List.dlookup k order = some [] := (List.mem_dlookup_iff hnd).mpr he
    have hlk : order.dlookup k = resp.Header.lookup k :=
      List.perm_dlookup k hnd resp.Header.nodupKeys hperm
    exact hne k (hlk.symm ▸ this)
  obtain ⟨header', hloop, -⟩ := newHTTPResponse_loop_lookup order ∅ hnd hne'
  have hnew : NewHTTPResponse resp order = .ok
      { StatusCode := resp.StatusCode, Proto := resp.Proto,
        ContentLength := resp.ContentLength, Header := header', body := resp.Body } := by
    simp only [NewHTTPResponse, hloop]
  exact ⟨_, hnew⟩

/-- C3: for every context and every outcome of `http.NewRequest` and of `client.Do`
(whose raw responses list at least one value for each header they have, ranged over
in any order), `PerformRequest` returns a `Response` in which exactly one of the two
holds: `Resp` is a handle and `Error` is empty, or `Resp` is nil and `Error` is
not empty.  When `http.NewRequest` fails, or when `client.Do` fails, `Resp` is nil and
`Error` is the message of that failure; when both succeed, `Resp` is the handle
`NewHTTPResponse` makes of the raw response and `Error` is empty. -/
theorem performRequest_handle_or_error {ω Conn ε Req σ : Type} (S : Stack ω Conn ε Req σ)
    (c : HTTPSCtx)
    (hrange : ∀ h, (S.rangeRaw h).Perm h.entries)
    (hraw : ∀ client req resp, S.Do client req = .ok resp → ∀ k, resp.Header.lookup k ≠ some []) :
    ∃ res, c.PerformRequest S = .ok res ∧
      ((res.Resp.isSome = true ∧ res.Error = []) ∨ (res.Resp = none ∧ res.Error ≠ [])) ∧
      (∀ err, S.NewRequest c.Method ("https://".toList ++ c.HostPath) c.body = .error err →
        res.Resp = none ∧ res.Error = err.Error S.quote) ∧
      (∀ req err, S.NewRequest c.Method ("https://".toList ++ c.HostPath) c.body = .ok req →
        S.Do (PerformRequest.client S.dial c) (PerformRequest.addHeaders S c req) = .error err →
        res.Resp = none ∧ res.Error = err.Error S.quote) ∧
      (∀ req resp, S.NewRequest c.Method ("https://".toList ++ c.HostPath) c.body = .ok req →
        S.Do (PerformRequest.client S.dial c) (PerformRequest.addHeaders S c req) = .ok resp →
        ∃ r, NewHTTPResponse resp (S.rangeRaw resp.Header) = .ok r ∧
          res.Resp = some r ∧ res.Error = []) := by
  cases hnew : S.NewRequest c.Method ("https://".toList ++ c.HostPath) c.body with
  | error err =>
    have hrun : c.PerformRequest S = .ok { Resp := none, Error := err.Error S.quote } := by
      simp only [HTTPSCtx.PerformRequest, hnew]
    refine ⟨_, hrun, Or.inr ⟨rfl, newRequestError_message_ne_nil _ _⟩, ?_, ?_, ?_⟩
    · intro err' h; cases h; exact ⟨rfl, rfl⟩
    · intro req err' h; cases h
    · intro req resp h; cases h
  | ok req =>
    cases hdo : S.Do (PerformRequest.client S.dial c) (PerformRequest.addHeaders S c req) with
    | error err =>
      have hrun : c.PerformRequest S = .ok { Resp := none, Error := err.Error S.quote } := by
        simp only [HTTPSCtx.PerformRequest, hnew, hdo]
      refine ⟨_, hrun, Or.inr ⟨rfl, urlError_message_ne_nil _ _⟩, ?_, ?_, ?_⟩
      · intro err' h; cases h
      · intro req' err' h h'
        cases h
        rw [hdo] at h'
        cases h'
        exact ⟨rfl, rfl⟩
      · intro req' resp h h'
        cases h
        rw [hdo] at h'
        cases h'
    | ok resp =>
      obtain ⟨r, hr⟩ := newHTTPResponse_returns resp (S.rangeRaw resp.Header)
        (hrange resp.Header) (hraw _ _ resp hdo)
      have hrun : c.PerformRequest S = .ok { Resp := some r, Error := [] } := by
        simp only [HTTPSCtx.PerformRequest, hnew, hdo, hr]
      refine ⟨_, hrun, Or.inl ⟨rfl, rfl⟩, ?_, ?_, ?_⟩
      · intro err' h; cases h
      · intro req' err' h h'
        cases h
        rw [hdo] at h'
        cases h'
      · intro req' resp' h h'
        cases h
        rw [hdo] at h'
        cases h'
        exact ⟨r, hr, rfl, rfl⟩

/-- On the example stack a context that skips verification gets a handle and no error
message, and a fresh context gets no handle and a message. -/
theorem performRequest_handle_or_error_witness :
    (∃ res, ((NewHTTPSCtx "GET".toList "example.com/".toList "10.0.0.1".toList).SetSkipVerify
        true).PerformRequest exampleStack = .ok res ∧
      res.Resp.isSome = true ∧ res.Error = []) ∧
    (∃ res, (NewHTTPSCtx "GET".toList "example.com/".toList "10.0.0.1".toList).PerformRequest
        exampleStack = .ok res ∧
      res.Resp = none ∧ res.Error ≠ []) := by
  have hrange : ∀ h, (exampleStack.rangeRaw h).Perm h.entries := fun h => List.reverse_perm _
  have hraw : ∀ client req resp, exampleStack.Do client req = .ok resp →
      ∀ k, resp.Header.lookup k ≠ some [] := by
    intro client req resp h
    simp only [exampleStack] at h
    split at h
    · cases h
      exact rawExample_values_ne_nil
    · cases h
  constructor
  · obtain ⟨res, hrun, -, -, -, hok⟩ := performRequest_handle_or_error exampleStack
      ((NewHTTPSCtx "GET".toList "example.com/".toList "10.0.0.1".toList).SetSkipVerify true)
      hrange hraw
    obtain ⟨r, -, hresp, herr⟩ := hok ("GET".toList, "https://example.com/".toList) rawExample
      (by decide) rfl
    exact ⟨res, hrun, by rw [hresp]; rfl, herr⟩
  · obtain ⟨res, hrun, -, -, hfail, -⟩ := performRequest_handle_or_error exampleStack
      (NewHTTPSCtx "GET".toList "example.com/".toList "10.0.0.1".toList) hrange hraw
    obtain ⟨hresp, herr⟩ := hfail ("GET".toList, "https://example.com/".toList) _
      (by decide) rfl
    exact ⟨res, hrun, hresp, by rw [herr]; exact urlError_message_ne_nil _ _⟩

end httpssni
